import Mathlib

/-!
Verification development for the torchvision prototype auto-augmentation engine
(`torchvision/prototype/transforms/_auto_augment.py`).

The Python module is shallowly embedded here:

* scalars (`float` magnitudes, probabilities, weights) become `ℚ`;
* the external image-operation library (`F.affine`, `F.rotate`, ...) is opaque,
  so an image is a formal term of the inductive type `Img` recording exactly
  which underlying call was made with which arguments;
* the ambient random source (`torch.randint`, `torch.rand`,
  `torch._sample_dirichlet`) becomes an explicit stream state `Rng` threaded
  through every function; `torch.randint(n, ())` is modelled as the next
  integer of the stream reduced mod `n` (a value uniform on `[0, n)`);
* Python exceptions (`IndexError` from out-of-range magnitude indexing,
  `KeyError` from a missing catalogue key, `ValueError` from constructor
  validation) become `Option`/`Except` failures;
* `math.degrees` is an external real-valued conversion, kept as an abstract
  parameter `degrees : ℚ → ℚ` of the dispatcher.
-/

/-- Interpolation modes of `torchvision.transforms.functional.InterpolationMode`
(the members used by this module). -/
inductive InterpolationMode
  | nearest
  | bilinear
  | bicubic
  deriving DecidableEq, Repr, Inhabited

/-- Fill argument: `Union[int, float, Sequence[int], Sequence[float]]`. -/
inductive Fill
  | scalar (value : ℚ)
  | seq (values : List ℚ)
  deriving DecidableEq, Repr, Inhabited

/-- Operation identifiers: the closed set of transform-id strings used as
catalogue keys across the four strategies. -/
inductive TransformId
  | Identity
  | ShearX
  | ShearY
  | TranslateX
  | TranslateY
  | Rotate
  | Brightness
  | Color
  | Contrast
  | Sharpness
  | Posterize
  | Solarize
  | AutoContrast
  | Equalize
  | Invert
  deriving DecidableEq, Repr, Inhabited

/-- Formal image values.  The external image library is out of scope, so an
image is a term recording the exact sequence of underlying calls applied to an
opaque source, with the literal arguments the Python code passes.  `mix`
records AugMix's weighted accumulator `m[:,0] * batch + Σ w_i * aug_i`
(original weight, original image, per-chain weight/result pairs),
`pilToTensor`/`toPil` record the PIL conversions of `AugMix._transform`. -/
inductive Img
  | source (id : ℕ)
  | affine (image : Img) (angle : ℚ) (translate : ℤ × ℤ) (scale : ℚ)
      (shear : ℚ × ℚ) (interpolation : InterpolationMode) (fill : Fill)
  | rotate (image : Img) (angle : ℚ)
  | adjustBrightness (image : Img) (factor : ℚ)
  | adjustSaturation (image : Img) (factor : ℚ)
  | adjustContrast (image : Img) (factor : ℚ)
  | adjustSharpness (image : Img) (factor : ℚ)
  | posterize (image : Img) (bits : ℤ)
  | solarize (image : Img) (threshold : ℚ)
  | autocontrast (image : Img)
  | equalize (image : Img)
  | invert (image : Img)
  | pilToTensor (image : Img)
  | toPil (image : Img)
  | mix (origWeight : ℚ) (original : Img) (chains : List (ℚ × Img))

/-- The kind of an image-like input value: `features.Image`, `PIL.Image.Image`
or a plain tensor (`is_simple_tensor`). -/
inductive ImgKind
  | feature
  | pil
  | tensor
  deriving DecidableEq, Repr, Inhabited

/-- An input to a strategy's `_transform`: either an image-like value of one of
the three supported kinds, or any other (non-image) value, represented
opaquely by a tag. -/
inductive Inpt
  | imageLike (kind : ImgKind) (image : Img)
  | other (value : ℕ)

/-- Explicit random-stream state standing for the ambient torch random source:
`ints` feeds `torch.randint`, `unifs` feeds `torch.rand(())` (values in
`[0, 1]`), `dirichlets` feeds `torch._sample_dirichlet`. -/
structure Rng where
  ints : List ℕ
  unifs : List ℚ
  dirichlets : List (List ℚ)

/-- Model of `int(torch.randint(bound, ()))`: the next integer of the stream,
reduced mod `bound` so the result is uniform on `[0, bound)`. -/
def randint (bound : ℕ) (rng : Rng) : ℕ × Rng :=
  ((rng.ints.headD 0) % bound, ⟨rng.ints.tail, rng.unifs, rng.dirichlets⟩)

/-- Model of `torch.rand(())`: the next uniform value of the stream. -/
def rand (rng : Rng) : ℚ × Rng :=
  (rng.unifs.headD 0, ⟨rng.ints, rng.unifs.tail, rng.dirichlets⟩)

/-- Model of `int(torch.randint(low=low, high=high, size=(1,)).item())`:
`low` plus the next integer reduced mod `high - low`, uniform on
`[low, high)`. -/
def randintRange (low high : ℕ) (rng : Rng) : ℕ × Rng :=
  (low + (rng.ints.headD 0) % (high - low), ⟨rng.ints.tail, rng.unifs, rng.dirichlets⟩)

/-- Pad or cut a list to length `n` (zero padding). -/
def padTo (n : ℕ) (l : List ℚ) : List ℚ :=
  l.take n ++ List.replicate (n - l.length) 0

/-- Model of `torch._sample_dirichlet` for a concentration vector with `n`
components: the next vector of the dirichlet stream, shaped to length `n`
(the real sampler always returns exactly `n` components). -/
def sampleDirichlet (n : ℕ) (rng : Rng) : List ℚ × Rng :=
  (padTo n (rng.dirichlets.headD []), ⟨rng.ints, rng.unifs, rng.dirichlets.tail⟩)

/-- Model of `torch.linspace(start, stop, steps)`: `steps` evenly spaced
values from `start` to `stop`. -/
def linspace (start stop : ℚ) (steps : ℕ) : List ℚ :=
  if steps = 1 then [start]
  else (List.range steps).map fun (i : ℕ) =>
    start + (stop - start) * (i : ℚ) / ((steps : ℚ) - 1)

/-- Round half to even (the rounding of `torch.round`). -/
def roundHalfEven (q : ℚ) : ℤ :=
  if q - ⌊q⌋ < 1 / 2 then ⌊q⌋
  else if 1 / 2 < q - ⌊q⌋ then ⌊q⌋ + 1
  else if 2 ∣ ⌊q⌋ then ⌊q⌋ else ⌊q⌋ + 1

/-- The posterize magnitude scale
`(base - (torch.arange(num_bins) / ((num_bins - 1) / divisions))).round().int()`.
With `base = 8, divisions = 4` this is AutoAugment's and RandAugment's scale,
with `base = 8, divisions = 6` TrivialAugmentWide's, and with
`base = 4, divisions = 4` AugMix's. -/
def posterizeScale (base divisions : ℚ) (numBins : ℕ) : List ℚ :=
  (List.range numBins).map fun (i : ℕ) =>
    ((roundHalfEven (base - (i : ℚ) / (((numBins : ℚ) - 1) / divisions)) : ℤ) : ℚ)

/-- One catalogue entry: the magnitude function
`(num_bins, height, width) ↦ tensor-or-None` and the `signed` flag. -/
structure SpaceEntry where
  magnitudesFn : ℕ → ℕ → ℕ → Option (List ℚ)
  signed : Bool

instance : Inhabited SpaceEntry := ⟨⟨fun _ _ _ => none, false⟩⟩

/-- Dictionary lookup `space[transform_id]` (`none` models `KeyError`). -/
def lookupEntry (space : List (TransformId × SpaceEntry)) (tid : TransformId) :
    Option SpaceEntry :=
  match space with
  | [] => none
  | (k, v) :: rest => if k = tid then some v else lookupEntry rest tid

/-- Model of `_AutoAugmentBase._get_random_item`: draw a key uniformly from the
dict's keys (in insertion order) and return the key/value pair. -/
def getRandomItem (space : List (TransformId × SpaceEntry)) (rng : Rng) :
    (TransformId × SpaceEntry) × Rng :=
  let r := randint space.length rng
  (space.getD r.1 default, r.2)

/-- `AutoAugment._AUGMENTATION_SPACE` (dict in insertion order). -/
def autoAugmentSpace : List (TransformId × SpaceEntry) :=
  [ (.ShearX, ⟨fun numBins _ _ => some (linspace 0 0.3 numBins), true⟩),
    (.ShearY, ⟨fun numBins _ _ => some (linspace 0 0.3 numBins), true⟩),
    (.TranslateX, ⟨fun numBins _ width => some (linspace 0 (150 / 331 * (width : ℚ)) numBins), true⟩),
    (.TranslateY, ⟨fun numBins height _ => some (linspace 0 (150 / 331 * (height : ℚ)) numBins), true⟩),
    (.Rotate, ⟨fun numBins _ _ => some (linspace 0 30 numBins), true⟩),
    (.Brightness, ⟨fun numBins _ _ => some (linspace 0 0.9 numBins), true⟩),
    (.Color, ⟨fun numBins _ _ => some (linspace 0 0.9 numBins), true⟩),
    (.Contrast, ⟨fun numBins _ _ => some (linspace 0 0.9 numBins), true⟩),
    (.Sharpness, ⟨fun numBins _ _ => some (linspace 0 0.9 numBins), true⟩),
    (.Posterize, ⟨fun numBins _ _ => some (posterizeScale 8 4 numBins), false⟩),
    (.Solarize, ⟨fun numBins _ _ => some (linspace 255 0 numBins), false⟩),
    (.AutoContrast, ⟨fun _ _ _ => none, false⟩),
    (.Equalize, ⟨fun _ _ _ => none, false⟩),
    (.Invert, ⟨fun _ _ _ => none, false⟩) ]

/-- `RandAugment._AUGMENTATION_SPACE` (dict in insertion order). -/
def randAugmentSpace : List (TransformId × SpaceEntry) :=
  [ (.Identity, ⟨fun _ _ _ => none, false⟩),
    (.ShearX, ⟨fun numBins _ _ => some (linspace 0 0.3 numBins), true⟩),
    (.ShearY, ⟨fun numBins _ _ => some (linspace 0 0.3 numBins), true⟩),
    (.TranslateX, ⟨fun numBins _ width => some (linspace 0 (150 / 331 * (width : ℚ)) numBins), true⟩),
    (.TranslateY, ⟨fun numBins height _ => some (linspace 0 (150 / 331 * (height : ℚ)) numBins), true⟩),
    (.Rotate, ⟨fun numBins _ _ => some (linspace 0 30 numBins), true⟩),
    (.Brightness, ⟨fun numBins _ _ => some (linspace 0 0.9 numBins), true⟩),
    (.Color, ⟨fun numBins _ _ => some (linspace 0 0.9 numBins), true⟩),
    (.Contrast, ⟨fun numBins _ _ => some (linspace 0 0.9 numBins), true⟩),
    (.Sharpness, ⟨fun numBins _ _ => some (linspace 0 0.9 numBins), true⟩),
    (.Posterize, ⟨fun numBins _ _ => some (posterizeScale 8 4 numBins), false⟩),
    (.Solarize, ⟨fun numBins _ _ => some (linspace 255 0 numBins), false⟩),
    (.AutoContrast, ⟨fun _ _ _ => none, false⟩),
    (.Equalize, ⟨fun _ _ _ => none, false⟩) ]

/-- `TrivialAugmentWide._AUGMENTATION_SPACE` (dict in insertion order). -/
def trivialAugmentWideSpace : List (TransformId × SpaceEntry) :=
  [ (.Identity, ⟨fun _ _ _ => none, false⟩),
    (.ShearX, ⟨fun numBins _ _ => some (linspace 0 0.99 numBins), true⟩),
    (.ShearY, ⟨fun numBins _ _ => some (linspace 0 0.99 numBins), true⟩),
    (.TranslateX, ⟨fun numBins _ _ => some (linspace 0 32 numBins), true⟩),
    (.TranslateY, ⟨fun numBins _ _ => some (linspace 0 32 numBins), true⟩),
    (.Rotate, ⟨fun numBins _ _ => some (linspace 0 135 numBins), true⟩),
    (.Brightness, ⟨fun numBins _ _ => some (linspace 0 0.99 numBins), true⟩),
    (.Color, ⟨fun numBins _ _ => some (linspace 0 0.99 numBins), true⟩),
    (.Contrast, ⟨fun numBins _ _ => some (linspace 0 0.99 numBins), true⟩),
    (.Sharpness, ⟨fun numBins _ _ => some (linspace 0 0.99 numBins), true⟩),
    (.Posterize, ⟨fun numBins _ _ => some (posterizeScale 8 6 numBins), false⟩),
    (.Solarize, ⟨fun numBins _ _ => some (linspace 255 0 numBins), false⟩),
    (.AutoContrast, ⟨fun _ _ _ => none, false⟩),
    (.Equalize, ⟨fun _ _ _ => none, false⟩) ]

/-- `AugMix._PARTIAL_AUGMENTATION_SPACE` (the reduced, geometric-and-tonal
catalogue; dict in insertion order). -/
def augMixReducedSpace : List (TransformId × SpaceEntry) :=
  [ (.ShearX, ⟨fun numBins _ _ => some (linspace 0 0.3 numBins), true⟩),
    (.ShearY, ⟨fun numBins _ _ => some (linspace 0 0.3 numBins), true⟩),
    (.TranslateX, ⟨fun numBins _ width => some (linspace 0 ((width : ℚ) / 3) numBins), true⟩),
    (.TranslateY, ⟨fun numBins height _ => some (linspace 0 ((height : ℚ) / 3) numBins), true⟩),
    (.Rotate, ⟨fun numBins _ _ => some (linspace 0 30 numBins), true⟩),
    (.Posterize, ⟨fun numBins _ _ => some (posterizeScale 4 4 numBins), false⟩),
    (.Solarize, ⟨fun numBins _ _ => some (linspace 255 0 numBins), false⟩),
    (.AutoContrast, ⟨fun _ _ _ => none, false⟩),
    (.Equalize, ⟨fun _ _ _ => none, false⟩) ]

/-- `AugMix._AUGMENTATION_SPACE = {**_PARTIAL_AUGMENTATION_SPACE, Brightness,
Color, Contrast, Sharpness}`: the reduced entries (whose keys come first in the
merged dict) followed by the four photometric additions. -/
def augMixFullSpace : List (TransformId × SpaceEntry) :=
  augMixReducedSpace ++
  [ (.Brightness, ⟨fun numBins _ _ => some (linspace 0 0.9 numBins), true⟩),
    (.Color, ⟨fun numBins _ _ => some (linspace 0 0.9 numBins), true⟩),
    (.Contrast, ⟨fun numBins _ _ => some (linspace 0 0.9 numBins), true⟩),
    (.Sharpness, ⟨fun numBins _ _ => some (linspace 0 0.9 numBins), true⟩) ]

/-- The four strategy catalogues (full and reduced AugMix spaces listed
separately). -/
def allSpaces : List (List (TransformId × SpaceEntry)) :=
  [autoAugmentSpace, randAugmentSpace, trivialAugmentWideSpace,
   augMixFullSpace, augMixReducedSpace]

/-- Python's `int()` truncation toward zero on a rational. -/
def pythonInt (q : ℚ) : ℤ :=
  if 0 ≤ q then ⌊q⌋ else ⌈q⌉

/-- Model of `_AutoAugmentBase._apply_image_transform`: route a transform id
with a concrete magnitude to the corresponding underlying image-library call.
`degrees` stands for `math.degrees`.  The transform-id vocabulary is closed,
so the final `raise ValueError` branch of the Python chain is not
representable (every constructor is handled). -/
def applyImageTransform (degrees : ℚ → ℚ) (image : Img) (transformId : TransformId)
    (magnitude : ℚ) (interpolation : InterpolationMode) (fill : Fill) : Img :=
  match transformId with
  | .Identity => image
  | .ShearX => .affine image 0 (0, 0) 1 (degrees magnitude, 0) interpolation fill
  | .ShearY => .affine image 0 (0, 0) 1 (0, degrees magnitude) interpolation fill
  | .TranslateX => .affine image 0 (pythonInt magnitude, 0) 1 (0, 0) interpolation fill
  | .TranslateY => .affine image 0 (0, pythonInt magnitude) 1 (0, 0) interpolation fill
  | .Rotate => .rotate image magnitude
  | .Brightness => .adjustBrightness image (1 + magnitude)
  | .Color => .adjustSaturation image (1 + magnitude)
  | .Contrast => .adjustContrast image (1 + magnitude)
  | .Sharpness => .adjustSharpness image (1 + magnitude)
  | .Posterize => .posterize image (pythonInt magnitude)
  | .Solarize => .solarize image magnitude
  | .AutoContrast => .autocontrast image
  | .Equalize => .equalize image
  | .Invert => .invert image

/-- Magnitude computation of `AutoAugment._transform` (lines 260-266): given
the table (already evaluated at the fixed bin count), the `signed` flag and
the policy's `magnitude_idx`, produce the magnitude.  `none` models the
Python error raised when the table is present but the index is absent
(`TypeError`) or out of range (`IndexError`); when the table is absent the
magnitude is `0.0` and no randomness is consumed; the sign coin
(`torch.rand(()) <= 0.5`) is tossed only for signed entries. -/
def sampleStepMagnitude (table : Option (List ℚ)) (signed : Bool) (idx : Option ℕ)
    (rng : Rng) : Option (ℚ × Rng) :=
  match table with
  | none => some (0, rng)
  | some ms =>
    match idx with
    | none => none
    | some i =>
      match ms.get? i with
      | none => none
      | some m =>
        if signed then
          let r := rand rng
          some ((if r.1 ≤ 1 / 2 then -m else m), r.2)
        else some (m, rng)

/-- Magnitude computation shared by `RandAugment._transform`,
`TrivialAugmentWide._transform` and `AugMix._transform`: when the table is
present, draw a fresh random bin index `int(torch.randint(binBound, ()))` and
index the table (out of range models `IndexError` as `none`), tossing the sign
coin only for signed entries; when the table is absent the magnitude is `0.0`
and no randomness is consumed. -/
def sampleRandomMagnitude (table : Option (List ℚ)) (signed : Bool) (binBound : ℕ)
    (rng : Rng) : Option (ℚ × Rng) :=
  match table with
  | none => some (0, rng)
  | some ms =>
    let r := randint binBound rng
    match ms.get? r.1 with
    | none => none
    | some m =>
      if signed then
        let r' := rand r.2
        some ((if r'.1 ≤ 1 / 2 then -m else m), r'.2)
      else some (m, r.2)

/-- One policy step `(transform_id, probability, magnitude_idx)` of an
AutoAugment sub-policy. -/
abbrev PolicyStep := TransformId × ℚ × Option ℕ

/-- A sub-policy: exactly two policy steps. -/
abbrev SubPolicy := PolicyStep × PolicyStep

/-- The `AutoAugmentPolicy` enumeration. -/
inductive AutoAugmentPolicy
  | imagenet
  | cifar10
  | svhn
  deriving DecidableEq, Repr, Inhabited

/-- The IMAGENET policy table of `AutoAugment._get_policies`. -/
def imagenetPolicy : List SubPolicy :=
  [ ((.Posterize, 0.4, some 8), (.Rotate, 0.6, some 9)),
    ((.Solarize, 0.6, some 5), (.AutoContrast, 0.6, none)),
    ((.Equalize, 0.8, none), (.Equalize, 0.6, none)),
    ((.Posterize, 0.6, some 7), (.Posterize, 0.6, some 6)),
    ((.Equalize, 0.4, none), (.Solarize, 0.2, some 4)),
    ((.Equalize, 0.4, none), (.Rotate, 0.8, some 8)),
    ((.Solarize, 0.6, some 3), (.Equalize, 0.6, none)),
    ((.Posterize, 0.8, some 5), (.Equalize, 1.0, none)),
    ((.Rotate, 0.2, some 3), (.Solarize, 0.6, some 8)),
    ((.Equalize, 0.6, none), (.Posterize, 0.4, some 6)),
    ((.Rotate, 0.8, some 8), (.Color, 0.4, some 0)),
    ((.Rotate, 0.4, some 9), (.Equalize, 0.6, none)),
    ((.Equalize, 0.0, none), (.Equalize, 0.8, none)),
    ((.Invert, 0.6, none), (.Equalize, 1.0, none)),
    ((.Color, 0.6, some 4), (.Contrast, 1.0, some 8)),
    ((.Rotate, 0.8, some 8), (.Color, 1.0, some 2)),
    ((.Color, 0.8, some 8), (.Solarize, 0.8, some 7)),
    ((.Sharpness, 0.4, some 7), (.Invert, 0.6, none)),
    ((.ShearX, 0.6, some 5), (.Equalize, 1.0, none)),
    ((.Color, 0.4, some 0), (.Equalize, 0.6, none)),
    ((.Equalize, 0.4, none), (.Solarize, 0.2, some 4)),
    ((.Solarize, 0.6, some 5), (.AutoContrast, 0.6, none)),
    ((.Invert, 0.6, none), (.Equalize, 1.0, none)),
    ((.Color, 0.6, some 4), (.Contrast, 1.0, some 8)),
    ((.Equalize, 0.8, none), (.Equalize, 0.6, none)) ]

/-- The CIFAR10 policy table of `AutoAugment._get_policies`. -/
def cifar10Policy : List SubPolicy :=
  [ ((.Invert, 0.1, none), (.Contrast, 0.2, some 6)),
    ((.Rotate, 0.7, some 2), (.TranslateX, 0.3, some 9)),
    ((.Sharpness, 0.8, some 1), (.Sharpness, 0.9, some 3)),
    ((.ShearY, 0.5, some 8), (.TranslateY, 0.7, some 9)),
    ((.AutoContrast, 0.5, none), (.Equalize, 0.9, none)),
    ((.ShearY, 0.2, some 7), (.Posterize, 0.3, some 7)),
    ((.Color, 0.4, some 3), (.Brightness, 0.6, some 7)),
    ((.Sharpness, 0.3, some 9), (.Brightness, 0.7, some 9)),
    ((.Equalize, 0.6, none), (.Equalize, 0.5, none)),
    ((.Contrast, 0.6, some 7), (.Sharpness, 0.6, some 5)),
    ((.Color, 0.7, some 7), (.TranslateX, 0.5, some 8)),
    ((.Equalize, 0.3, none), (.AutoContrast, 0.4, none)),
    ((.TranslateY, 0.4, some 3), (.Sharpness, 0.2, some 6)),
    ((.Brightness, 0.9, some 6), (.Color, 0.2, some 8)),
    ((.Solarize, 0.5, some 2), (.Invert, 0.0, none)),
    ((.Equalize, 0.2, none), (.AutoContrast, 0.6, none)),
    ((.Equalize, 0.2, none), (.Equalize, 0.6, none)),
    ((.Color, 0.9, some 9), (.Equalize, 0.6, none)),
    ((.AutoContrast, 0.8, none), (.Solarize, 0.2, some 8)),
    ((.Brightness, 0.1, some 3), (.Color, 0.7, some 0)),
    ((.Solarize, 0.4, some 5), (.AutoContrast, 0.9, none)),
    ((.TranslateY, 0.9, some 9), (.TranslateY, 0.7, some 9)),
    ((.AutoContrast, 0.9, none), (.Solarize, 0.8, some 3)),
    ((.Equalize, 0.8, none), (.Invert, 0.1, none)),
    ((.TranslateY, 0.7, some 9), (.AutoContrast, 0.9, none)) ]

/-- The SVHN policy table of `AutoAugment._get_policies`. -/
def svhnPolicy : List SubPolicy :=
  [ ((.ShearX, 0.9, some 4), (.Invert, 0.2, none)),
    ((.ShearY, 0.9, some 8), (.Invert, 0.7, none)),
    ((.Equalize, 0.6, none), (.Solarize, 0.6, some 6)),
    ((.Invert, 0.9, none), (.Equalize, 0.6, none)),
    ((.Equalize, 0.6, none), (.Rotate, 0.9, some 3)),
    ((.ShearX, 0.9, some 4), (.AutoContrast, 0.8, none)),
    ((.ShearY, 0.9, some 8), (.Invert, 0.4, none)),
    ((.ShearY, 0.9, some 5), (.Solarize, 0.2, some 6)),
    ((.Invert, 0.9, none), (.AutoContrast, 0.8, none)),
    ((.Equalize, 0.6, none), (.Rotate, 0.9, some 3)),
    ((.ShearX, 0.9, some 4), (.Solarize, 0.3, some 3)),
    ((.ShearY, 0.8, some 8), (.Invert, 0.7, none)),
    ((.Equalize, 0.9, none), (.TranslateY, 0.6, some 6)),
    ((.Invert, 0.9, none), (.Equalize, 0.6, none)),
    ((.Contrast, 0.3, some 3), (.Rotate, 0.8, some 4)),
    ((.Invert, 0.8, none), (.TranslateY, 0.0, some 2)),
    ((.ShearY, 0.7, some 6), (.Solarize, 0.4, some 8)),
    ((.Invert, 0.6, none), (.Rotate, 0.8, some 4)),
    ((.ShearY, 0.3, some 7), (.TranslateX, 0.9, some 3)),
    ((.ShearX, 0.1, some 6), (.Invert, 0.6, none)),
    ((.Solarize, 0.7, some 2), (.TranslateY, 0.6, some 7)),
    ((.ShearY, 0.8, some 4), (.Invert, 0.8, none)),
    ((.ShearX, 0.7, some 9), (.TranslateY, 0.8, some 3)),
    ((.ShearY, 0.8, some 5), (.AutoContrast, 0.7, none)),
    ((.ShearX, 0.7, some 2), (.Invert, 0.1, none)) ]

/-- `AutoAugment._get_policies` on the recognized policy names (the
`ValueError` branch for an unrecognized name is outside the closed
enumeration). -/
def getPolicies : AutoAugmentPolicy → List SubPolicy
  | .imagenet => imagenetPolicy
  | .cifar10 => cifar10Policy
  | .svhn => svhnPolicy

/-- `AutoAugment._get_params` (policy part): select one sub-policy by a
uniform `torch.randint(len(self._policies), ())` draw. -/
def AutoAugment.getParams (policies : List SubPolicy) (rng : Rng) : SubPolicy × Rng :=
  let r := randint policies.length rng
  (policies.getD r.1 default, r.2)

/-- Loop body of `AutoAugment._transform` (lines 254-270): draw
`torch.rand(())`; unless it is `<=` the step's probability, skip; otherwise
look up the catalogue entry, evaluate its magnitude table with the fixed bin
count `10`, compute the magnitude and dispatch. -/
def applyPolicyStep (degrees : ℚ → ℚ) (interpolation : InterpolationMode) (fill : Fill)
    (h w : ℕ) (st : Img × Rng) (step : PolicyStep) : Option (Img × Rng) :=
  let r := rand st.2
  if ¬ r.1 ≤ step.2.1 then some (st.1, r.2)
  else
    match lookupEntry autoAugmentSpace step.1 with
    | none => none
    | some entry =>
      match sampleStepMagnitude (entry.magnitudesFn 10 h w) entry.signed step.2.2 r.2 with
      | none => none
      | some (m, rng₂) =>
        some (applyImageTransform degrees st.1 step.1 m interpolation fill, rng₂)

/-- `AutoAugment._transform`: non-image inputs pass through unchanged; an
image-like input is fed through the two policy steps in order, each step's
output feeding the next. -/
def AutoAugment.transform (degrees : ℚ → ℚ) (interpolation : InterpolationMode)
    (fill : Fill) (h w : ℕ) (pol : SubPolicy) (inpt : Inpt) (rng : Rng) :
    Option (Inpt × Rng) :=
  match inpt with
  | .other v => some (.other v, rng)
  | .imageLike k i =>
    match applyPolicyStep degrees interpolation fill h w (i, rng) pol.1 with
    | none => none
    | some st₁ =>
      match applyPolicyStep degrees interpolation fill h w st₁ pol.2 with
      | none => none
      | some st₂ => some (.imageLike k st₂.1, st₂.2)

/-- The `RandAugment` strategy's construction-time state. -/
structure RandAugment where
  numOps : ℕ
  magnitude : ℕ
  numMagnitudeBins : ℕ
  interpolation : InterpolationMode
  fill : Fill

/-- Loop body of `RandAugment._transform` (lines 322-335): draw an operation
uniformly from the catalogue, compute the magnitude table at
`num_magnitude_bins`, draw a fresh random bin index, sample and dispatch. -/
def RandAugment.step (degrees : ℚ → ℚ) (t : RandAugment) (h w : ℕ)
    (st : Img × Rng) : Option (Img × Rng) :=
  let r := getRandomItem randAugmentSpace st.2
  match sampleRandomMagnitude (r.1.2.magnitudesFn t.numMagnitudeBins h w) r.1.2.signed
      t.numMagnitudeBins r.2 with
  | none => none
  | some (m, rng₂) =>
    some (applyImageTransform degrees st.1 r.1.1 m t.interpolation t.fill, rng₂)

/-- Chain `n` iterations of `RandAugment.step`. -/
def RandAugment.chain (degrees : ℚ → ℚ) (t : RandAugment) (h w : ℕ) :
    ℕ → Img × Rng → Option (Img × Rng)
  | 0, st => some st
  | n + 1, st =>
    match RandAugment.step degrees t h w st with
    | none => none
    | some st' => RandAugment.chain degrees t h w n st'

/-- `RandAugment._transform`: non-image inputs pass through unchanged; an
image-like input is fed through `num_ops` independent steps. -/
def RandAugment.transform (degrees : ℚ → ℚ) (t : RandAugment) (h w : ℕ)
    (inpt : Inpt) (rng : Rng) : Option (Inpt × Rng) :=
  match inpt with
  | .other v => some (.other v, rng)
  | .imageLike k i =>
    match RandAugment.chain degrees t h w t.numOps (i, rng) with
    | none => none
    | some st => some (.imageLike k st.1, st.2)

/-- The `TrivialAugmentWide` strategy's construction-time state. -/
structure TrivialAugmentWide where
  numMagnitudeBins : ℕ
  interpolation : InterpolationMode
  fill : Fill

/-- `TrivialAugmentWide._transform`: non-image inputs pass through unchanged;
otherwise draw exactly one operation uniformly from the wide-range catalogue,
one random bin index, sample and dispatch once. -/
def TrivialAugmentWide.transform (degrees : ℚ → ℚ) (t : TrivialAugmentWide)
    (h w : ℕ) (inpt : Inpt) (rng : Rng) : Option (Inpt × Rng) :=
  match inpt with
  | .other v => some (.other v, rng)
  | .imageLike k i =>
    let r := getRandomItem trivialAugmentWideSpace rng
    match sampleRandomMagnitude (r.1.2.magnitudesFn t.numMagnitudeBins h w) r.1.2.signed
        t.numMagnitudeBins r.2 with
    | none => none
    | some (m, rng₂) =>
      some (.imageLike k (applyImageTransform degrees i r.1.1 m t.interpolation t.fill), rng₂)

/-- The `AugMix` strategy's construction-time state. -/
structure AugMix where
  severity : ℤ
  mixtureWidth : ℕ
  chainDepth : ℤ
  alpha : ℚ
  allOps : Bool
  interpolation : InterpolationMode
  fill : Fill

/-- `self._PARAMETER_MAX` of `AugMix.__init__`: the fixed bin count. -/
def AugMix.PARAMETER_MAX : ℕ := 10

/-- `AugMix.__init__`: validate `1 <= severity <= self._PARAMETER_MAX` and
fail with `ValueError` otherwise; on success store the parameters. -/
def AugMix.init (severity : ℤ) (mixtureWidth : ℕ) (chainDepth : ℤ) (alpha : ℚ)
    (allOps : Bool) (interpolation : InterpolationMode) (fill : Fill) :
    Except String AugMix :=
  if ¬ (1 ≤ severity ∧ severity ≤ (AugMix.PARAMETER_MAX : ℤ)) then
    .error "The severity must be between 1 and 10."
  else
    .ok ⟨severity, mixtureWidth, chainDepth, alpha, allOps, interpolation, fill⟩

/-- Inner loop body of `AugMix._transform` (lines 471-483): draw an operation
uniformly from the selected catalogue, evaluate its table at
`self._PARAMETER_MAX` bins, draw a bin index in `[0, severity)`, sample the
magnitude and dispatch. -/
def AugMix.chainStep (degrees : ℚ → ℚ) (t : AugMix) (h w : ℕ) (st : Img × Rng) :
    Option (Img × Rng) :=
  let space := if t.allOps then augMixFullSpace else augMixReducedSpace
  let r := getRandomItem space st.2
  match sampleRandomMagnitude (r.1.2.magnitudesFn AugMix.PARAMETER_MAX h w) r.1.2.signed
      t.severity.toNat r.2 with
  | none => none
  | some (m, rng₂) =>
    some (applyImageTransform degrees st.1 r.1.1 m t.interpolation t.fill, rng₂)

/-- Run one AugMix chain for `depth` iterations starting from the original
image. -/
def AugMix.runChain (degrees : ℚ → ℚ) (t : AugMix) (h w : ℕ) :
    ℕ → Img × Rng → Option (Img × Rng)
  | 0, st => some st
  | d + 1, st =>
    match AugMix.chainStep degrees t h w st with
    | none => none
    | some st' => AugMix.runChain degrees t h w d st'

/-- Run `n` AugMix chains (the `for i in range(self.mixture_width)` loop),
each starting from the original image, resolving each chain's depth as
`chain_depth` when positive and a fresh `torch.randint(low=1, high=4, ...)`
draw otherwise; returns the chain results in order. -/
def AugMix.chains (degrees : ℚ → ℚ) (t : AugMix) (h w : ℕ) (image : Img) :
    ℕ → Rng → Option (List Img × Rng)
  | 0, rng => some ([], rng)
  | n + 1, rng =>
    let d := if 0 < t.chainDepth then (t.chainDepth.toNat, rng) else randintRange 1 4 rng
    match AugMix.runChain degrees t h w d.1 (image, d.2) with
    | none => none
    | some st =>
      match AugMix.chains degrees t h w image n st.2 with
      | none => none
      | some rest => some (st.1 :: rest.1, rest.2)

/-- The weight computation of `AugMix._transform` (lines 455-466): first a
2-component Dirichlet draw `m` (component 0 weights the original image,
component 1 the combined augmented contribution), then a `mixture_width`
component Dirichlet draw scaled elementwise by `m[:, 1]`.  Returns the
original-image coefficient and the per-chain coefficients. -/
def AugMix.mixtureCoefficients (t : AugMix) (rng : Rng) : (ℚ × List ℚ) × Rng :=
  let d₁ := sampleDirichlet 2 rng
  let d₂ := sampleDirichlet t.mixtureWidth d₁.2
  ((d₁.1.headD 0, d₂.1.map fun x => x * (d₁.1.get? 1).getD 0), d₂.2)

/-- `AugMix._transform`: non-image inputs pass through unchanged; a PIL input
is first converted by `pil_to_tensor`; the output is the accumulator
`m[:, 0] * batch + Σ combined_weights[:, i] * aug_i` (recorded as a formal
`Img.mix` node), converted back to a PIL image for PIL inputs and rewrapped
`new_like` for `features.Image` inputs. -/
def AugMix.transform (degrees : ℚ → ℚ) (t : AugMix) (h w : ℕ) (inpt : Inpt)
    (rng : Rng) : Option (Inpt × Rng) :=
  match inpt with
  | .other v => some (.other v, rng)
  | .imageLike kind img =>
    let image := match kind with
      | .pil => Img.pilToTensor img
      | _ => img
    let d₁ := sampleDirichlet 2 rng
    let d₂ := sampleDirichlet t.mixtureWidth d₁.2
    let combined := d₂.1.map fun x => x * (d₁.1.get? 1).getD 0
    match AugMix.chains degrees t h w image t.mixtureWidth d₂.2 with
    | none => none
    | some res =>
      let mixed := Img.mix (d₁.1.headD 0) image (combined.zip res.1)
      match kind with
      | .pil => some (.imageLike .pil (Img.toPil mixed), res.2)
      | .feature => some (.imageLike .feature mixed, res.2)
      | .tensor => some (.imageLike .tensor mixed, res.2)

/-- Extract the accumulator weights from an output image: the original-image
coefficient and the list of per-chain coefficients of the `Img.mix` node
(looking through the PIL back-conversion). -/
def weightsOfImg : Img → Option (ℚ × List ℚ)
  | .toPil i => weightsOfImg i
  | .mix w0 _ chains => some (w0, chains.map Prod.fst)
  | _ => none

/-- Extract the accumulator weights from a strategy output value. -/
def weightsOfInpt : Inpt → Option (ℚ × List ℚ)
  | .imageLike _ i => weightsOfImg i
  | .other _ => none

/-! ### Basic lemmas about the embedded primitives -/

theorem linspace_length (a b : ℚ) (n : ℕ) : (linspace a b n).length = n := by
  unfold linspace
  split
  · simp [*]
  · simp

theorem posterizeScale_length (base divisions : ℚ) (n : ℕ) :
    (posterizeScale base divisions n).length = n := by
  simp [posterizeScale]

theorem padTo_length (n : ℕ) (l : List ℚ) : (padTo n l).length = n := by
  simp [padTo]
  omega

theorem le_roundHalfEven (z : ℤ) (q : ℚ) (hz : (z : ℚ) ≤ q) : z ≤ roundHalfEven q := by
  have hfl : z ≤ ⌊q⌋ := Int.le_floor.mpr hz
  unfold roundHalfEven
  split
  · exact hfl
  · split
    · omega
    · split
      · exact hfl
      · omega

theorem linspace_mem_nonneg {a b : ℚ} (ha : 0 ≤ a) (hb : 0 ≤ b) {n : ℕ} {x : ℚ}
    (hx : x ∈ linspace a b n) : 0 ≤ x := by
  unfold linspace at hx
  split at hx
  · rcases List.mem_singleton.mp hx with rfl
    exact ha
  · rcases List.mem_map.mp hx with ⟨i, hi, rfl⟩
    have hin : i < n := List.mem_range.mp hi
    rename_i hn1
    have h2 : 2 ≤ n := by omega
    have hpos : (0 : ℚ) < (n : ℚ) - 1 := by
      have : (2 : ℚ) ≤ (n : ℚ) := by exact_mod_cast h2
      linarith
    have hi1 : (i : ℚ) ≤ (n : ℚ) - 1 := by
      have : (i : ℚ) + 1 ≤ (n : ℚ) := by exact_mod_cast hin
      linarith
    have hkey : a + (b - a) * (i : ℚ) / ((n : ℚ) - 1)
        = a * (1 - (i : ℚ) / ((n : ℚ) - 1)) + b * ((i : ℚ) / ((n : ℚ) - 1)) := by
      field_simp
      ring
    rw [hkey]
    have ht0 : 0 ≤ (i : ℚ) / ((n : ℚ) - 1) := div_nonneg (by positivity) hpos.le
    have ht1 : (i : ℚ) / ((n : ℚ) - 1) ≤ 1 := by
      rw [div_le_one hpos]
      linarith
    have h1 := mul_nonneg ha (by linarith : (0 : ℚ) ≤ 1 - (i : ℚ) / ((n : ℚ) - 1))
    have h2' := mul_nonneg hb ht0
    linarith

theorem posterizeScale_arg_bounds {divisions : ℚ} (hd : 0 < divisions) {n i : ℕ}
    (hi : i < n) :
    0 ≤ (i : ℚ) / (((n : ℚ) - 1) / divisions) ∧
    (i : ℚ) / (((n : ℚ) - 1) / divisions) ≤ divisions := by
  rcases Nat.lt_or_ge n 2 with h2 | h2
  · have hi0 : i = 0 := by omega
    subst hi0
    simp [hd.le]
  · have hpos : (0 : ℚ) < (n : ℚ) - 1 := by
      have : (2 : ℚ) ≤ (n : ℚ) := by exact_mod_cast h2
      linarith
    rw [div_div_eq_mul_div]
    constructor
    · positivity
    · rw [div_le_iff₀ hpos]
      have hi1 : (i : ℚ) ≤ (n : ℚ) - 1 := by
        have : (i : ℚ) + 1 ≤ (n : ℚ) := by exact_mod_cast hi
        linarith
      nlinarith [hd.le]

theorem posterizeScale_mem_ge {base divisions : ℚ} (hd : 0 < divisions) (z : ℤ)
    (hz : (z : ℚ) ≤ base - divisions) {n : ℕ} {x : ℚ}
    (hx : x ∈ posterizeScale base divisions n) : (z : ℚ) ≤ x := by
  rcases List.mem_map.mp hx with ⟨i, hi, rfl⟩
  have hb := posterizeScale_arg_bounds hd (List.mem_range.mp hi)
  have hle : (z : ℚ) ≤ base - (i : ℚ) / (((n : ℚ) - 1) / divisions) := by linarith [hb.2]
  exact_mod_cast le_roundHalfEven z _ hle

theorem sum_map_mul_const (l : List ℚ) (c : ℚ) :
    (l.map fun x => x * c).sum = l.sum * c := by
  induction l with
  | nil => simp
  | cons a l ih =>
    simp [ih]
    ring

/-! ### Claim theorems: dispatcher (C1, C4), constructor validation (C7),
non-image passthrough (C9) -/

/-- Concrete stand-in for the external `math.degrees` conversion, used to
instantiate theorems at concrete inputs. -/
def degreesEx : ℚ → ℚ := fun q => 57 * q

/-- C1, counterexample: dispatching `Rotate` produces the underlying call
`F.rotate(image, angle=magnitude)` with no interpolation or fill argument at
all, so the caller-supplied interpolation mode and fill value are NOT passed
through: at the concrete input below, changing them from `bilinear`/`1` to
`nearest`/`0` leaves the emitted call unchanged. -/
theorem rotate_branch_drops_interpolation_and_fill :
    applyImageTransform degreesEx (Img.source 0) .Rotate 15 .bilinear (Fill.scalar 1)
      = applyImageTransform degreesEx (Img.source 0) .Rotate 15 .nearest (Fill.scalar 0) ∧
    applyImageTransform degreesEx (Img.source 0) .Rotate 15 .bilinear (Fill.scalar 1)
      = Img.rotate (Img.source 0) 15 :=
  ⟨rfl, rfl⟩

/-- C1, amended: `_apply_image_transform` passes the caller-supplied
interpolation mode and fill value through unchanged to the underlying affine
call for ShearX, ShearY, TranslateX and TranslateY, but the Rotate branch
calls `F.rotate` with only the angle, forwarding neither interpolation nor
fill. -/
theorem dispatcher_geometric_argument_passing (degrees : ℚ → ℚ) (img : Img) (m : ℚ)
    (ip : InterpolationMode) (f : Fill) :
    applyImageTransform degrees img .ShearX m ip f
      = Img.affine img 0 (0, 0) 1 (degrees m, 0) ip f ∧
    applyImageTransform degrees img .ShearY m ip f
      = Img.affine img 0 (0, 0) 1 (0, degrees m) ip f ∧
    applyImageTransform degrees img .TranslateX m ip f
      = Img.affine img 0 (pythonInt m, 0) 1 (0, 0) ip f ∧
    applyImageTransform degrees img .TranslateY m ip f
      = Img.affine img 0 (0, pythonInt m) 1 (0, 0) ip f ∧
    applyImageTransform degrees img .Rotate m ip f = Img.rotate img m :=
  ⟨rfl, rfl, rfl, rfl, rfl⟩

/-- C4: dispatching TranslateX/TranslateY emits a pure affine translation by
`int(magnitude)` pixels along the respective axis (angle 0, scale 1, zero
shear), where `int` truncates toward zero; in particular magnitude `10.5`
translates by exactly `10` pixels (and `-10.5` by `-10`, truncation rather
than rounding). -/
theorem translate_dispatch_truncates_magnitude (degrees : ℚ → ℚ) (img : Img) (m : ℚ)
    (ip : InterpolationMode) (f : Fill) :
    applyImageTransform degrees img .TranslateX m ip f
      = Img.affine img 0 (pythonInt m, 0) 1 (0, 0) ip f ∧
    applyImageTransform degrees img .TranslateY m ip f
      = Img.affine img 0 (0, pythonInt m) 1 (0, 0) ip f ∧
    pythonInt (21 / 2) = 10 ∧
    pythonInt (-(21 / 2)) = -10 :=
  ⟨rfl, rfl, by norm_num [pythonInt], by norm_num [pythonInt, Int.ceil_neg]⟩

/-- C7: constructing an AugMix instance fails eagerly with the `ValueError`
condition exactly when `severity` lies outside `[1, 10]`, and succeeds
(storing the parameters) whenever `severity` lies inside `[1, 10]`. -/
theorem augmix_severity_validated_at_construction (severity : ℤ) (mw : ℕ) (cd : ℤ)
    (a : ℚ) (ao : Bool) (ip : InterpolationMode) (f : Fill) :
    AugMix.init severity mw cd a ao ip f =
      if 1 ≤ severity ∧ severity ≤ 10 then
        Except.ok ⟨severity, mw, cd, a, ao, ip, f⟩
      else Except.error "The severity must be between 1 and 10." := by
  by_cases hs : 1 ≤ severity ∧ severity ≤ 10
  · simp [AugMix.init, AugMix.PARAMETER_MAX, hs]
  · simp [AugMix.init, AugMix.PARAMETER_MAX, hs]

/-- C9: for every strategy, an input value that is not image-like is returned
by `_transform` identically unchanged (and no randomness is consumed). -/
theorem nonimage_inputs_pass_through_unchanged (v : ℕ) (rng : Rng) (degrees : ℚ → ℚ)
    (ip : InterpolationMode) (f : Fill) (h w : ℕ) (pol : SubPolicy)
    (tR : RandAugment) (tT : TrivialAugmentWide) (tM : AugMix) :
    AutoAugment.transform degrees ip f h w pol (.other v) rng = some (.other v, rng) ∧
    RandAugment.transform degrees tR h w (.other v) rng = some (.other v, rng) ∧
    TrivialAugmentWide.transform degrees tT h w (.other v) rng = some (.other v, rng) ∧
    AugMix.transform degrees tM h w (.other v) rng = some (.other v, rng) :=
  ⟨rfl, rfl, rfl, rfl⟩

/-! ### C8: RandAugment ignores its magnitude parameter -/

theorem randaugment_step_magnitude_irrelevant (degrees : ℚ → ℚ) (n m₁ m₂ b : ℕ)
    (ip : InterpolationMode) (f : Fill) (h w : ℕ) (st : Img × Rng) :
    RandAugment.step degrees ⟨n, m₁, b, ip, f⟩ h w st
      = RandAugment.step degrees ⟨n, m₂, b, ip, f⟩ h w st := rfl

theorem randaugment_chain_magnitude_irrelevant (degrees : ℚ → ℚ) (n m₁ m₂ b : ℕ)
    (ip : InterpolationMode) (f : Fill) (h w : ℕ) :
    ∀ (k : ℕ) (st : Img × Rng),
      RandAugment.chain degrees ⟨n, m₁, b, ip, f⟩ h w k st
        = RandAugment.chain degrees ⟨n, m₂, b, ip, f⟩ h w k st := by
  intro k
  induction k with
  | zero => intro st; rfl
  | succ k ih =>
    intro st
    simp only [RandAugment.chain]
    rw [randaugment_step_magnitude_irrelevant degrees n m₁ m₂ b ip f h w st]
    cases RandAugment.step degrees ⟨n, m₂, b, ip, f⟩ h w st with
    | none => rfl
    | some st' => exact ih st'

/-- C8: for identical random streams and inputs, two RandAugment instances
differing only in the `magnitude` constructor parameter produce identical
outputs — `_transform` draws a fresh random bin index per step and never
reads `self.magnitude`. -/
theorem randaugment_output_independent_of_magnitude (t₁ t₂ : RandAugment)
    (h1 : t₁.numOps = t₂.numOps) (h2 : t₁.numMagnitudeBins = t₂.numMagnitudeBins)
    (h3 : t₁.interpolation = t₂.interpolation) (h4 : t₁.fill = t₂.fill)
    (degrees : ℚ → ℚ) (h w : ℕ) (inpt : Inpt) (rng : Rng) :
    RandAugment.transform degrees t₁ h w inpt rng
      = RandAugment.transform degrees t₂ h w inpt rng := by
  obtain ⟨n₁, m₁, b₁, i₁, f₁⟩ := t₁
  obtain ⟨n₂, m₂, b₂, i₂, f₂⟩ := t₂
  dsimp only at h1 h2 h3 h4
  subst h1
  subst h2
  subst h3
  subst h4
  cases inpt with
  | other v => rfl
  | imageLike k img =>
    simp only [RandAugment.transform]
    rw [randaugment_chain_magnitude_irrelevant degrees n₁ m₁ m₂ b₁ i₁ f₁ h w n₁ (img, rng)]

/-- Concrete random stream for instantiating theorems. -/
def rngEx : Rng := ⟨[0, 1, 2, 3, 4, 5], [0, 1/2, 1, 1/4, 3/4], [[1/2, 1/2], [1/3, 1/3, 1/3]]⟩

/-- Concrete image-like input for instantiating theorems. -/
def inptEx : Inpt := .imageLike .tensor (Img.source 0)

/-- A RandAugment instance with the default magnitude index 9. -/
def randAugmentEx9 : RandAugment := ⟨2, 9, 31, .nearest, .scalar 0⟩

/-- The same RandAugment configuration except magnitude index 3. -/
def randAugmentEx3 : RandAugment := ⟨2, 3, 31, .nearest, .scalar 0⟩

/-- C8 witness: the magnitude-independence theorem applied at a concrete
input and pair of instances differing only in `magnitude` (9 vs 3). -/
theorem randaugment_output_independent_of_magnitude_witness :
    randAugmentEx9.numOps = randAugmentEx3.numOps ∧
    randAugmentEx9.numMagnitudeBins = randAugmentEx3.numMagnitudeBins ∧
    randAugmentEx9.interpolation = randAugmentEx3.interpolation ∧
    randAugmentEx9.fill = randAugmentEx3.fill ∧
    RandAugment.transform degreesEx randAugmentEx9 224 224 inptEx rngEx
      = RandAugment.transform degreesEx randAugmentEx3 224 224 inptEx rngEx :=
  ⟨rfl, rfl, rfl, rfl,
    randaugment_output_independent_of_magnitude randAugmentEx9 randAugmentEx3
      rfl rfl rfl rfl degreesEx 224 224 inptEx rngEx⟩

/-! ### C10: the three posterize scales -/

theorem roundHalfEven_eq_of_lt (z : ℤ) (q : ℚ) (h1 : (z : ℚ) ≤ q)
    (h2 : q < (z : ℚ) + 1 / 2) : roundHalfEven q = z := by
  have hf : ⌊q⌋ = z := Int.floor_eq_iff.mpr ⟨h1, by linarith⟩
  unfold roundHalfEven
  rw [hf, if_pos (by linarith : q - (z : ℚ) < 1 / 2)]

theorem roundHalfEven_eq_of_gt (z : ℤ) (q : ℚ) (h1 : (z : ℚ) + 1 / 2 < q)
    (h2 : q < (z : ℚ) + 1) : roundHalfEven q = z + 1 := by
  have hf : ⌊q⌋ = z := Int.floor_eq_iff.mpr ⟨by linarith, h2⟩
  unfold roundHalfEven
  rw [hf, if_neg (by linarith : ¬ q - (z : ℚ) < 1 / 2),
    if_pos (by linarith : 1 / 2 < q - (z : ℚ))]

theorem posterizeScale_get (base divisions : ℚ) (n : ℕ) (i : Fin n) :
    (posterizeScale base divisions n).get? i.val
      = some ((roundHalfEven (base - divisions * (i.val : ℚ) / ((n : ℚ) - 1)) : ℤ) : ℚ) := by
  have harg : base - (i.val : ℚ) / (((n : ℚ) - 1) / divisions)
      = base - divisions * (i.val : ℚ) / ((n : ℚ) - 1) := by
    rw [div_div_eq_mul_div]
    ring
  unfold posterizeScale
  rw [List.get?_map, List.get?_range i.isLt, Option.map_some', harg]

set_option maxRecDepth 4000 in
/-- C10: the Posterize entry shared by AugMix's full and reduced catalogues
uses the scale `round(4 - 4 i / 9)` over 10 bins, running from 4 bits down to
0 bits, while AutoAugment's and RandAugment's Posterize entries use the
8-based scale `round(8 - 4 i / (num_bins - 1))`, whose values never drop
below 4 bits for any bin count. -/
theorem posterize_scales_across_strategies :
    lookupEntry augMixFullSpace .Posterize = lookupEntry augMixReducedSpace .Posterize ∧
    lookupEntry augMixFullSpace .Posterize
      = some ⟨fun numBins _ _ => some (posterizeScale 4 4 numBins), false⟩ ∧
    lookupEntry autoAugmentSpace .Posterize
      = some ⟨fun numBins _ _ => some (posterizeScale 8 4 numBins), false⟩ ∧
    lookupEntry randAugmentSpace .Posterize
      = some ⟨fun numBins _ _ => some (posterizeScale 8 4 numBins), false⟩ ∧
    posterizeScale 4 4 10 = [4, 4, 3, 3, 2, 2, 1, 1, 0, 0] ∧
    posterizeScale 8 4 10 = [8, 8, 7, 7, 6, 6, 5, 5, 4, 4] ∧
    (∀ (n : ℕ) (i : Fin n), (posterizeScale 4 4 n).get? i.val
        = some ((roundHalfEven (4 - 4 * (i.val : ℚ) / ((n : ℚ) - 1)) : ℤ) : ℚ)) ∧
    (∀ (n : ℕ) (i : Fin n), (posterizeScale 8 4 n).get? i.val
        = some ((roundHalfEven (8 - 4 * (i.val : ℚ) / ((n : ℚ) - 1)) : ℤ) : ℚ)) ∧
    (∀ n : ℕ, (posterizeScale 8 4 n).all (fun x => decide (4 ≤ x)) = true) := by
  refine ⟨rfl, rfl, rfl, rfl, ?_, ?_, posterizeScale_get 4 4, posterizeScale_get 8 4, ?_⟩
  · norm_num [posterizeScale, List.range_succ]
    refine ⟨?_, ?_, ?_, ?_, ?_, ?_, ?_, ?_, ?_, ?_⟩
    · rw [roundHalfEven_eq_of_lt 4 4 (by norm_num) (by norm_num)]; norm_num
    · rw [roundHalfEven_eq_of_gt 3 (32 / 9) (by norm_num) (by norm_num)]; norm_num
    · rw [roundHalfEven_eq_of_lt 3 (28 / 9) (by norm_num) (by norm_num)]; norm_num
    · rw [roundHalfEven_eq_of_gt 2 (8 / 3) (by norm_num) (by norm_num)]; norm_num
    · rw [roundHalfEven_eq_of_lt 2 (20 / 9) (by norm_num) (by norm_num)]; norm_num
    · rw [roundHalfEven_eq_of_gt 1 (16 / 9) (by norm_num) (by norm_num)]; norm_num
    · rw [roundHalfEven_eq_of_lt 1 (4 / 3) (by norm_num) (by norm_num)]
    · rw [roundHalfEven_eq_of_gt 0 (8 / 9) (by norm_num) (by norm_num)]; norm_num
    · rw [roundHalfEven_eq_of_lt 0 (4 / 9) (by norm_num) (by norm_num)]
    · rw [roundHalfEven_eq_of_lt 0 0 (by norm_num) (by norm_num)]
  · norm_num [posterizeScale, List.range_succ]
    refine ⟨?_, ?_, ?_, ?_, ?_, ?_, ?_, ?_, ?_, ?_⟩
    · rw [roundHalfEven_eq_of_lt 8 8 (by norm_num) (by norm_num)]; norm_num
    · rw [roundHalfEven_eq_of_gt 7 (68 / 9) (by norm_num) (by norm_num)]; norm_num
    · rw [roundHalfEven_eq_of_lt 7 (64 / 9) (by norm_num) (by norm_num)]; norm_num
    · rw [roundHalfEven_eq_of_gt 6 (20 / 3) (by norm_num) (by norm_num)]; norm_num
    · rw [roundHalfEven_eq_of_lt 6 (56 / 9) (by norm_num) (by norm_num)]; norm_num
    · rw [roundHalfEven_eq_of_gt 5 (52 / 9) (by norm_num) (by norm_num)]; norm_num
    · rw [roundHalfEven_eq_of_lt 5 (16 / 3) (by norm_num) (by norm_num)]; norm_num
    · rw [roundHalfEven_eq_of_gt 4 (44 / 9) (by norm_num) (by norm_num)]; norm_num
    · rw [roundHalfEven_eq_of_lt 4 (40 / 9) (by norm_num) (by norm_num)]; norm_num
    · rw [roundHalfEven_eq_of_lt 4 4 (by norm_num) (by norm_num)]; norm_num
  · intro n
    refine List.all_eq_true.mpr fun x hx => decide_eq_true ?_
    have : ((4 : ℤ) : ℚ) ≤ x := posterizeScale_mem_ge (by norm_num) 4 (by norm_num) hx
    exact_mod_cast this

/-! ### C2: AugMix accumulator weights form a convex combination -/

theorem augmix_chains_length (degrees : ℚ → ℚ) (t : AugMix) (h w : ℕ) (image : Img) :
    ∀ (n : ℕ) (rng : Rng) (res : List Img × Rng),
      AugMix.chains degrees t h w image n rng = some res → res.1.length = n := by
  intro n
  induction n with
  | zero =>
    intro rng res hres
    simp only [AugMix.chains] at hres
    cases hres
    rfl
  | succ n ih =>
    intro rng res hres
    simp only [AugMix.chains] at hres
    split at hres
    · exact Option.noConfusion hres
    · rename_i st hst
      split at hres
      · exact Option.noConfusion hres
      · rename_i rest hrest
        cases hres
        simp only [List.length_cons]
        rw [ih _ _ hrest]

/-- C2: given that each Dirichlet draw sums to 1 along its component axis, the
coefficient AugMix applies to the original image (component 0 of the
2-component draw) plus the sum of the `mixture_width` per-chain coefficients
(the second draw scaled by component 1) equals exactly 1; consequently,
whenever `_transform` produces an output for an image-like input, the output
accumulator's weights are exactly these coefficients, i.e. the output is a
convex combination of the original image and the chain results. -/
theorem augmix_weights_form_convex_combination (t : AugMix) (rng : Rng)
    (hm : (sampleDirichlet 2 rng).1.sum = 1)
    (hw : (sampleDirichlet t.mixtureWidth (sampleDirichlet 2 rng).2).1.sum = 1) :
    (AugMix.mixtureCoefficients t rng).1.1 + (AugMix.mixtureCoefficients t rng).1.2.sum = 1 ∧
    ∀ (degrees : ℚ → ℚ) (h w : ℕ) (k : ImgKind) (i : Img),
      match AugMix.transform degrees t h w (.imageLike k i) rng with
      | some out => weightsOfInpt out.1 = some (AugMix.mixtureCoefficients t rng).1
      | none => True := by
  have hlen : (sampleDirichlet 2 rng).1.length = 2 := padTo_length 2 _
  rcases hd : (sampleDirichlet 2 rng).1 with _ | ⟨a, _ | ⟨b, _ | ⟨c, l⟩⟩⟩
  · rw [hd] at hlen
    simp at hlen
  · rw [hd] at hlen
    simp at hlen
  case cons.cons.cons =>
    rw [hd] at hlen
    simp at hlen
  have hab : a + b = 1 := by
    rw [hd] at hm
    simpa using hm
  have hmc : (AugMix.mixtureCoefficients t rng).1
      = (a, (sampleDirichlet t.mixtureWidth (sampleDirichlet 2 rng).2).1.map fun x => x * b) := by
    simp only [AugMix.mixtureCoefficients]
    rw [hd]
    simp
  have hcsum :
      ((sampleDirichlet t.mixtureWidth (sampleDirichlet 2 rng).2).1.map fun x => x * b).sum
        = b := by
    rw [sum_map_mul_const, hw, one_mul]
  constructor
  · rw [hmc]
    simpa [hcsum] using hab
  · intro degrees h w k i
    have hclen :
        ((sampleDirichlet t.mixtureWidth (sampleDirichlet 2 rng).2).1.map fun x => x * b).length
          = t.mixtureWidth := by
      rw [List.length_map]
      exact padTo_length _ _
    cases k
    case pil =>
      simp only [AugMix.transform]
      rw [hd]
      simp only [List.get?_cons_succ, List.get?_cons_zero, Option.getD_some, List.headD_cons]
      cases hch : AugMix.chains degrees t h w (Img.pilToTensor i) t.mixtureWidth
          (sampleDirichlet t.mixtureWidth (sampleDirichlet 2 rng).2).2 with
      | none => simp
      | some res =>
        have hrlen := augmix_chains_length degrees t h w (Img.pilToTensor i)
          t.mixtureWidth _ res hch
        simp only [weightsOfInpt, weightsOfImg, hmc]
        rw [List.map_fst_zip]
        rw [hrlen]
        exact le_of_eq hclen
    case feature =>
      simp only [AugMix.transform]
      rw [hd]
      simp only [List.get?_cons_succ, List.get?_cons_zero, Option.getD_some, List.headD_cons]
      cases hch : AugMix.chains degrees t h w i t.mixtureWidth
          (sampleDirichlet t.mixtureWidth (sampleDirichlet 2 rng).2).2 with
      | none => simp
      | some res =>
        have hrlen := augmix_chains_length degrees t h w i t.mixtureWidth _ res hch
        simp only [weightsOfInpt, weightsOfImg, hmc]
        rw [List.map_fst_zip]
        rw [hrlen]
        exact le_of_eq hclen
    case tensor =>
      simp only [AugMix.transform]
      rw [hd]
      simp only [List.get?_cons_succ, List.get?_cons_zero, Option.getD_some, List.headD_cons]
      cases hch : AugMix.chains degrees t h w i t.mixtureWidth
          (sampleDirichlet t.mixtureWidth (sampleDirichlet 2 rng).2).2 with
      | none => simp
      | some res =>
        have hrlen := augmix_chains_length degrees t h w i t.mixtureWidth _ res hch
        simp only [weightsOfInpt, weightsOfImg, hmc]
        rw [List.map_fst_zip]
        rw [hrlen]
        exact le_of_eq hclen

/-- Concrete AugMix instance (severity 3, the default) for instantiating
theorems. -/
def augMixEx : AugMix := ⟨3, 3, 1, 1, true, .bilinear, .scalar 0⟩

/-- C2 witness: the convex-combination theorem applied at a concrete AugMix
instance and a concrete random stream whose Dirichlet draws are
`[1/2, 1/2]` and `[1/3, 1/3, 1/3]`. -/
theorem augmix_weights_form_convex_combination_witness :
    (sampleDirichlet 2 rngEx).1.sum = 1 ∧
    (sampleDirichlet augMixEx.mixtureWidth (sampleDirichlet 2 rngEx).2).1.sum = 1 ∧
    ((AugMix.mixtureCoefficients augMixEx rngEx).1.1
        + (AugMix.mixtureCoefficients augMixEx rngEx).1.2.sum = 1 ∧
      ∀ (degrees : ℚ → ℚ) (h w : ℕ) (k : ImgKind) (i : Img),
        match AugMix.transform degrees augMixEx h w (.imageLike k i) rngEx with
        | some out => weightsOfInpt out.1 = some (AugMix.mixtureCoefficients augMixEx rngEx).1
        | none => True) :=
  ⟨by norm_num [sampleDirichlet, padTo, rngEx],
   by norm_num [sampleDirichlet, padTo, rngEx, augMixEx],
   augmix_weights_form_convex_combination augMixEx rngEx
     (by norm_num [sampleDirichlet, padTo, rngEx])
     (by norm_num [sampleDirichlet, padTo, rngEx, augMixEx])⟩

/-! ### C6: AugMix bin indices are always in range -/

theorem augMixFull_table_length (p : TransformId × SpaceEntry) (hp : p ∈ augMixFullSpace)
    (n h w : ℕ) (ms : List ℚ) (hms : p.2.magnitudesFn n h w = some ms) :
    ms.length = n := by
  fin_cases hp <;>
    first
      | exact Option.noConfusion hms
      | (injection hms with hms'
         rw [← hms']
         simp [linspace_length, posterizeScale_length])

theorem sampleRandomMagnitude_ne_none (table : Option (List ℚ)) (s : Bool) (b : ℕ)
    (rng : Rng) (hlen : ∀ ms, table = some ms → rng.ints.headD 0 % b < ms.length) :
    sampleRandomMagnitude table s b rng ≠ none := by
  match table with
  | none => simp [sampleRandomMagnitude]
  | some ms =>
    have hlt := hlen ms rfl
    simp only [sampleRandomMagnitude, randint]
    rw [List.get?_eq_get hlt]
    split
    · rename_i heq
      exact absurd heq (by simp)
    · split <;> simp

/-- C6: for any AugMix instance whose severity lies in `[1, 10]` (which
construction enforces) and any catalogue entry of its full or reduced space,
every magnitude table is computed with exactly `_PARAMETER_MAX = 10` bins, the
bin index drawn in `[0, severity)` is a valid index into that table, and the
out-of-range indexing failure of the magnitude sampler is unreachable. -/
theorem augmix_bin_index_always_in_range (t : AugMix)
    (h1 : 1 ≤ t.severity) (h10 : t.severity ≤ 10)
    (space : List (TransformId × SpaceEntry))
    (hs : space = augMixFullSpace ∨ space = augMixReducedSpace)
    (p : TransformId × SpaceEntry) (hp : p ∈ space) (h w : ℕ) (rng : Rng) :
    (∀ ms, p.2.magnitudesFn AugMix.PARAMETER_MAX h w = some ms → ms.length = 10) ∧
    sampleRandomMagnitude (p.2.magnitudesFn AugMix.PARAMETER_MAX h w) p.2.signed
      t.severity.toNat rng ≠ none := by
  have hp' : p ∈ augMixFullSpace := by
    rcases hs with rfl | rfl
    · exact hp
    · exact List.mem_append_left _ hp
  refine ⟨fun ms hms => augMixFull_table_length p hp' _ h w ms hms, ?_⟩
  refine sampleRandomMagnitude_ne_none _ _ _ _ fun ms hms => ?_
  have hlen := augMixFull_table_length p hp' _ h w ms hms
  have hpos : 0 < t.severity.toNat := by omega
  have hle : t.severity.toNat ≤ 10 := by omega
  have hmod : rng.ints.headD 0 % t.severity.toNat < t.severity.toNat :=
    Nat.mod_lt _ hpos
  rw [hlen]
  exact lt_of_lt_of_le hmod hle

/-- C6 witness: the in-range theorem applied at the concrete AugMix instance
`augMixEx` (severity 3), the ShearX entry of the full catalogue, image size
224×224 and a concrete random stream. -/
theorem augmix_bin_index_always_in_range_witness :
    (1 : ℤ) ≤ augMixEx.severity ∧ augMixEx.severity ≤ 10 ∧
    (augMixFullSpace = augMixFullSpace ∨ augMixFullSpace = augMixReducedSpace) ∧
    (TransformId.ShearX, (⟨fun numBins _ _ => some (linspace 0 0.3 numBins), true⟩ : SpaceEntry))
      ∈ augMixFullSpace ∧
    ((∀ ms, (⟨fun numBins _ _ => some (linspace 0 0.3 numBins), true⟩ : SpaceEntry).magnitudesFn
          AugMix.PARAMETER_MAX 224 224 = some ms → ms.length = 10) ∧
      sampleRandomMagnitude
        ((⟨fun numBins _ _ => some (linspace 0 0.3 numBins), true⟩ : SpaceEntry).magnitudesFn
          AugMix.PARAMETER_MAX 224 224)
        (⟨fun numBins _ _ => some (linspace 0 0.3 numBins), true⟩ : SpaceEntry).signed
        augMixEx.severity.toNat rngEx ≠ none) :=
  ⟨by norm_num [augMixEx], by norm_num [augMixEx], Or.inl rfl, List.Mem.head _,
    augmix_bin_index_always_in_range augMixEx (by norm_num [augMixEx])
      (by norm_num [augMixEx]) augMixFullSpace (Or.inl rfl) _ (List.Mem.head _)
      224 224 rngEx⟩

/-! ### C5: magnitude-free entries sample 0.0 and unsigned entries are never
sign-flipped -/

/-- Property bundle for one catalogue entry: the magnitude-free identifiers
(AutoContrast, Equalize, Invert, Identity) have absent magnitude tables, and
entries with `signed = false` have elementwise non-negative tables. -/
def entryMagnitudeProp (p : TransformId × SpaceEntry) : Prop :=
  ((p.1 = TransformId.AutoContrast ∨ p.1 = TransformId.Equalize ∨
      p.1 = TransformId.Invert ∨ p.1 = TransformId.Identity) →
    ∀ n h w, p.2.magnitudesFn n h w = none) ∧
  (p.2.signed = false →
    ∀ n h w ms, p.2.magnitudesFn n h w = some ms → ∀ x ∈ ms, 0 ≤ x)

/-- C5: in every strategy catalogue, the entries whose magnitude function
yields an absent result are exactly handled by the samplers returning `0.0`
regardless of bin index (and consuming no randomness), and for entries with
`signed = false` the samplers return the (non-negative) table value with the
sign never flipped and no sign coin tossed. -/
theorem magnitude_free_zero_and_unsigned_never_flipped
    (space : List (TransformId × SpaceEntry)) (hs : space ∈ allSpaces)
    (p : TransformId × SpaceEntry) (hp : p ∈ space) :
    entryMagnitudeProp p ∧
    (∀ (s : Bool) (idx : Option ℕ) (rng : Rng),
      sampleStepMagnitude none s idx rng = some (0, rng)) ∧
    (∀ (s : Bool) (b : ℕ) (rng : Rng),
      sampleRandomMagnitude none s b rng = some (0, rng)) ∧
    (∀ (ms : List ℚ) (i : ℕ) (m : ℚ) (rng : Rng), ms.get? i = some m →
      sampleStepMagnitude (some ms) false (some i) rng = some (m, rng)) ∧
    (∀ (ms : List ℚ) (b : ℕ) (m : ℚ) (rng : Rng),
      ms.get? (randint b rng).1 = some m →
      sampleRandomMagnitude (some ms) false b rng = some (m, (randint b rng).2)) := by
  refine ⟨⟨?_, ?_⟩, fun s idx rng => rfl, fun s b rng => rfl, ?_, ?_⟩
  · intro hid n h w
    fin_cases hs <;> fin_cases hp <;>
      first
        | rfl
        | exact absurd hid (by decide)
  · intro hsg n h w ms hms x hx
    fin_cases hs <;> fin_cases hp <;>
      first
        | exact Bool.noConfusion hsg
        | exact Option.noConfusion hms
        | (injection hms with hms'
           rw [← hms'] at hx
           exact linspace_mem_nonneg (by norm_num) (by norm_num) hx)
        | (injection hms with hms'
           rw [← hms'] at hx
           exact_mod_cast posterizeScale_mem_ge (by norm_num) 0 (by norm_num) hx)
  · intro ms i m rng hmi
    simp only [sampleStepMagnitude, hmi, if_neg Bool.false_ne_true]
  · intro ms b m rng hmb
    simp only [sampleRandomMagnitude, hmb, if_neg Bool.false_ne_true]

/-- C5 witness: the sampling theorem applied at the AutoAugment catalogue and
its first entry. -/
theorem magnitude_free_zero_and_unsigned_never_flipped_witness :
    autoAugmentSpace ∈ allSpaces ∧
    (TransformId.ShearX, (⟨fun numBins _ _ => some (linspace 0 0.3 numBins), true⟩ : SpaceEntry))
      ∈ autoAugmentSpace ∧
    (entryMagnitudeProp (TransformId.ShearX,
        (⟨fun numBins _ _ => some (linspace 0 0.3 numBins), true⟩ : SpaceEntry)) ∧
      (∀ (s : Bool) (idx : Option ℕ) (rng : Rng),
        sampleStepMagnitude none s idx rng = some (0, rng)) ∧
      (∀ (s : Bool) (b : ℕ) (rng : Rng),
        sampleRandomMagnitude none s b rng = some (0, rng)) ∧
      (∀ (ms : List ℚ) (i : ℕ) (m : ℚ) (rng : Rng), ms.get? i = some m →
        sampleStepMagnitude (some ms) false (some i) rng = some (m, rng)) ∧
      (∀ (ms : List ℚ) (b : ℕ) (m : ℚ) (rng : Rng),
        ms.get? (randint b rng).1 = some m →
        sampleRandomMagnitude (some ms) false b rng = some (m, (randint b rng).2))) :=
  ⟨List.Mem.head _, List.Mem.head _,
    magnitude_free_zero_and_unsigned_never_flipped autoAugmentSpace (List.Mem.head _)
      _ (List.Mem.head _)⟩

/-! ### C3: AutoAugment fixed-policy semantics -/

/-- Magnitude sampler modelled from the spec (4.2 Magnitude Sampler): if the
entry's magnitude function yields an absent result, return `0.0` regardless of
the bin index; otherwise compute the table at the given bin count and select
the element at the bin index (a missing or out-of-range index is a contract
violation); if the entry is signed, flip the sign with probability exactly one
half (realized as the next uniform draw being `≤ 1/2`). -/
def specSample (entry : SpaceEntry) (bins : ℕ) (binIndex : Option ℕ) (h w : ℕ)
    (rng : Rng) : Option (ℚ × Rng) :=
  match entry.magnitudesFn bins h w with
  | none => some (0, rng)
  | some ms =>
    match binIndex with
    | none => none
    | some i =>
      match ms.get? i with
      | none => none
      | some m =>
        if entry.signed then
          let r := rand rng
          some ((if r.1 ≤ 1 / 2 then -m else m), r.2)
        else some (m, rng)

/-- Policy-step semantics modelled from the spec (4.4 Fixed-Policy Engine):
draw one uniform random value; if it exceeds the step's probability, skip the
step; otherwise sample the magnitude via the catalogue entry using a fixed bin
count of 10 and dispatch the operation. -/
def specPolicyStep (degrees : ℚ → ℚ) (interpolation : InterpolationMode) (fill : Fill)
    (h w : ℕ) (step : PolicyStep) (st : Img × Rng) : Option (Img × Rng) :=
  let r := rand st.2
  if step.2.1 < r.1 then some (st.1, r.2)
  else
    match lookupEntry autoAugmentSpace step.1 with
    | none => none
    | some entry =>
      match specSample entry 10 step.2.2 h w r.2 with
      | none => none
      | some mr =>
        some (applyImageTransform degrees st.1 step.1 mr.1 interpolation fill, mr.2)

theorem specSample_eq_sampleStepMagnitude (entry : SpaceEntry) (bins : ℕ)
    (binIndex : Option ℕ) (h w : ℕ) (rng : Rng) :
    specSample entry bins binIndex h w rng
      = sampleStepMagnitude (entry.magnitudesFn bins h w) entry.signed binIndex rng := by
  unfold specSample sampleStepMagnitude
  cases entry.magnitudesFn bins h w with
  | none => rfl
  | some ms =>
    cases binIndex with
    | none => rfl
    | some i =>
      cases ms.get? i with
      | none => rfl
      | some m => rfl

theorem applyPolicyStep_eq_spec (degrees : ℚ → ℚ) (ip : InterpolationMode) (f : Fill)
    (h w : ℕ) (step : PolicyStep) (st : Img × Rng) :
    applyPolicyStep degrees ip f h w st step = specPolicyStep degrees ip f h w step st := by
  simp only [applyPolicyStep, specPolicyStep]
  by_cases hu : (rand st.2).1 ≤ step.2.1
  · rw [if_neg (not_not_intro hu), if_neg (not_lt.mpr hu)]
    cases lookupEntry autoAugmentSpace step.1 with
    | none => rfl
    | some entry =>
      simp only [specSample_eq_sampleStepMagnitude]
      cases sampleStepMagnitude (entry.magnitudesFn 10 h w) entry.signed step.2.2
          (rand st.2).2 with
      | none => rfl
      | some mr =>
        cases mr
        rfl
  · rw [if_pos hu, if_pos (not_le.mp hu)]

/-- C3: AutoAugment selects one sub-policy uniformly at random among the 25
entries of the loaded policy table (each named policy table has exactly 25
sub-policies and the drawn index is uniform on `[0, 25)`), and its transform
on an image-like input runs the two policy steps of the selected sub-policy in
order — each step drawing one fresh uniform value, skipping when it exceeds
the step's probability and otherwise sampling the magnitude with a fixed bin
count of 10 and dispatching — feeding each executed step's output into the
next step, exactly as the spec-modelled step semantics prescribes. -/
theorem autoaugment_policy_selection_and_step_semantics :
    (imagenetPolicy.length = 25 ∧ cifar10Policy.length = 25 ∧ svhnPolicy.length = 25) ∧
    (∀ (pol : AutoAugmentPolicy) (rng : Rng),
      AutoAugment.getParams (getPolicies pol) rng
        = ((getPolicies pol).getD (rng.ints.headD 0 % 25) default,
            ⟨rng.ints.tail, rng.unifs, rng.dirichlets⟩)) ∧
    (∀ (degrees : ℚ → ℚ) (ip : InterpolationMode) (f : Fill) (h w : ℕ) (sp : SubPolicy)
        (k : ImgKind) (i : Img) (rng : Rng),
      AutoAugment.transform degrees ip f h w sp (.imageLike k i) rng
        = match specPolicyStep degrees ip f h w sp.1 (i, rng) with
          | none => none
          | some st₁ =>
            match specPolicyStep degrees ip f h w sp.2 st₁ with
            | none => none
            | some st₂ => some (.imageLike k st₂.1, st₂.2)) := by
  refine ⟨⟨rfl, rfl, rfl⟩, ?_, ?_⟩
  · intro pol rng
    cases pol <;> rfl
  · intro degrees ip f h w sp k i rng
    simp only [AutoAugment.transform, applyPolicyStep_eq_spec]
